import Mathlib

/-!
Verification of the BezierContours rasterizer.

The repository computes per-pixel coverage of quadratic-Bezier outlines by
dual-axis ray casting (`trace_ray` in `src/main.cpp`, duplicated in
`src/glyph/main.cpp` and as a GLSL fragment shader in `src/sdl/main.cpp`).

Embedding conventions:
* C++ `float` arithmetic is modelled by exact rational arithmetic (`ℚ`).
  Rational division by zero is total (`q / 0 = 0`); where IEEE special values
  matter (the unguarded `c / (2*b)` fallback) a separate extended-value model
  `FVal` with `inf`/`nan` propagation is used.
* `std::sqrt` is irrational on `ℚ`, so it is abstracted as an explicit
  function parameter `sqrtQ : ℚ → ℚ`; every theorem below either holds for an
  arbitrary `sqrtQ` or is evaluated on inputs that never reach the sqrt branch.
* The float literal `0.0001F` in the branch condition is modelled as `1/10000`.
-/

namespace Bezier

/-- `struct point { float x; float y; }` from `src/main.cpp`. -/
structure point where
  x : ℚ
  y : ℚ
deriving DecidableEq

/-- `struct curve { point p1; point p2; point p3; }` from `src/main.cpp`. -/
structure curve where
  p1 : point
  p2 : point
  p3 : point
deriving DecidableEq

/-- `clamp(x, a, b) = std::min(std::max(x, a), b)` from `src/main.cpp`. -/
def clamp (x a b : ℚ) : ℚ := min (max x a) b

/-- `eval_curve` from `src/main.cpp`:
`it*it*y1 + 2*t*it*y2 + t*t*y3` with `it = 1 - t`. -/
def eval_curve (y1 y2 y3 t : ℚ) : ℚ :=
  (1 - t) * (1 - t) * y1 + 2 * t * (1 - t) * y2 + t * t * y3

/-- `enum class orientation { horizontal, vertical }` from `src/main.cpp`. -/
inductive orientation where
  | horizontal
  | vertical
deriving DecidableEq

/-- The sign-pattern lookup constant `0x2E74` from `src/main.cpp`. -/
def table : ℕ := 0x2E74

/-- The 3-bit sign code from `src/main.cpp`:
`num = ((y1 > 0) ? 2 : 0) + ((y2 > 0) ? 4 : 0) + ((y3 > 0) ? 8 : 0)`. -/
def signCode (y1 y2 y3 : ℚ) : ℕ :=
  (if y1 > 0 then 2 else 0) + (if y2 > 0 then 4 else 0) + (if y3 > 0 then 8 else 0)

/-- The first root computed by `trace_ray` (`src/main.cpp` lines 63-76):
`t1 = c / (2*b)` in the near-linear fallback, else `(b - root) / a` with
`root = sqrt(max(b*b - a*c, 0))`. -/
def root1 (sqrtQ : ℚ → ℚ) (y1 y2 y3 : ℚ) : ℚ :=
  let a := y1 - 2 * y2 + y3
  let b := y1 - y2
  let c := y1
  if |a| < 1 / 10000 then c / (2 * b)
  else (b - sqrtQ (max (b * b - a * c) 0)) / a

/-- The second root computed by `trace_ray` (`src/main.cpp` lines 63-76):
`t2 = c / (2*b)` in the near-linear fallback, else `(b + root) / a`. -/
def root2 (sqrtQ : ℚ → ℚ) (y1 y2 y3 : ℚ) : ℚ :=
  let a := y1 - 2 * y2 + y3
  let b := y1 - y2
  let c := y1
  if |a| < 1 / 10000 then c / (2 * b)
  else (b + sqrtQ (max (b * b - a * c) 0)) / a

/-- The coverage contribution of one segment in sample-relative coordinates,
mirroring the loop body of `trace_ray` (`src/main.cpp` lines 63-91):
add `clamp(eval_curve(x, t1)*ppem + 0.5, 0, 1)` when bit `sh & 1` is set,
subtract the analogous term for `t2` when bit `sh & 2` is set. -/
def segContribRel (sqrtQ : ℚ → ℚ) (x1 x2 x3 y1 y2 y3 ppem : ℚ) : ℚ :=
  let sh := table >>> signCode y1 y2 y3
  (if sh &&& 1 ≠ 0 then
    clamp (eval_curve x1 x2 x3 (root1 sqrtQ y1 y2 y3) * ppem + 1 / 2) 0 1
  else 0) -
  (if sh &&& 2 ≠ 0 then
    clamp (eval_curve x1 x2 x3 (root2 sqrtQ y1 y2 y3) * ppem + 1 / 2) 0 1
  else 0)

/-- One iteration of the `trace_ray` loop: translate the segment into
sample-relative coordinates, swapping x/y roles for the vertical orientation
(`src/main.cpp` lines 44-61), and accumulate its contribution. -/
def traceStep (sqrtQ : ℚ → ℚ) (fx fy ppem : ℚ) (orient : orientation)
    (cov : ℚ) (crv : curve) : ℚ :=
  match orient with
  | .horizontal =>
      cov + segContribRel sqrtQ (crv.p1.x - fx) (crv.p2.x - fx) (crv.p3.x - fx)
        (crv.p1.y - fy) (crv.p2.y - fy) (crv.p3.y - fy) ppem
  | .vertical =>
      cov + segContribRel sqrtQ (crv.p1.y - fy) (crv.p2.y - fy) (crv.p3.y - fy)
        (crv.p1.x - fx) (crv.p2.x - fx) (crv.p3.x - fx) ppem

/-- `trace_ray` from `src/main.cpp` lines 38-108: fold the per-segment
contribution over the curve list starting from `coverage = 0`. -/
def trace_ray (sqrtQ : ℚ → ℚ) (curves : List curve) (fx fy ppem : ℚ)
    (orient : orientation) : ℚ :=
  curves.foldl (traceStep sqrtQ fx fy ppem orient) 0

/-- The per-pixel compositing step of `main` in `src/main.cpp` lines 139-145:
`coverage_h = min(|trace_ray(..)|, 1)`, `coverage_v = min(|trace_ray(.., vertical)|, 1)`,
`avg_coverage = (coverage_h + coverage_v) / 2`. -/
def composite (sqrtQ : ℚ → ℚ) (curves : List curve) (fx fy ppem_h ppem_v : ℚ) : ℚ :=
  let coverage_h := min |trace_ray sqrtQ curves fx fy ppem_h .horizontal| 1
  let coverage_v := min |trace_ray sqrtQ curves fx fy ppem_v .vertical| 1
  (coverage_h + coverage_v) / 2

/-- Segment reversal: swap `p1` and `p3`, keeping the control point. -/
def revCurve (c : curve) : curve := ⟨c.p3, c.p2, c.p1⟩

/-- The leading quadratic coefficient `a = y1 - 2*y2 + y3` of a segment for a
given scan orientation; it is independent of the sample point because the
sample offsets cancel. -/
def aCoeff (c : curve) (orient : orientation) : ℚ :=
  match orient with
  | .horizontal => c.p1.y - 2 * c.p2.y + c.p3.y
  | .vertical => c.p1.x - 2 * c.p2.x + c.p3.x

/-- Decomposition state threaded through the FreeType outline callbacks of
`src/glyph/main.cpp` (the captured locals `curves`, `prev`, `min_x`, `min_y`,
`max_x`, `max_y`). -/
structure DecompState where
  curves : List curve
  prev : point
  min_x : ℚ
  min_y : ℚ
  max_x : ℚ
  max_y : ℚ
deriving DecidableEq

/-- The `g_move_to` handler of `src/glyph/main.cpp` lines 169-177: set `prev`
and extend the bounding box. -/
def g_move_to (s : DecompState) (c : point) : DecompState :=
  { s with
    prev := c
    min_x := min s.min_x c.x
    min_y := min s.min_y c.y
    max_x := max s.max_x c.x
    max_y := max s.max_y c.y }

/-- The `g_line_to` handler of `src/glyph/main.cpp` lines 178-188: append the
degenerate quadratic `{prev, midpoint(prev, c), c}`, advance `prev`, extend
the bounding box. -/
def g_line_to (s : DecompState) (c : point) : DecompState :=
  { curves := s.curves ++
      [⟨s.prev, ⟨(s.prev.x + c.x) / 2, (s.prev.y + c.y) / 2⟩, c⟩]
    prev := c
    min_x := min s.min_x c.x
    min_y := min s.min_y c.y
    max_x := max s.max_x c.x
    max_y := max s.max_y c.y }

/-- The `g_quadratic_to` handler of `src/glyph/main.cpp` lines 189-200. -/
def g_quadratic_to (s : DecompState) (control c : point) : DecompState :=
  { curves := s.curves ++ [⟨s.prev, control, c⟩]
    prev := c
    min_x := min (min s.min_x c.x) control.x
    min_y := min (min s.min_y c.y) control.y
    max_x := max (max s.max_x c.x) control.x
    max_y := max (max s.max_y c.y) control.y }

/-- The `g_cubic_to` handler of `src/glyph/main.cpp` lines 201-205: it only
logs and returns 0, leaving every captured variable untouched. -/
def g_cubic_to (s : DecompState) (_control1 _control2 _c : point) : DecompState := s

/-- `max_height = (height - 1) * width * num_channels` from `src/glyph/main.cpp`
line 254, with `num_channels = 4`. -/
def max_height_off (w h : ℤ) : ℤ := (h - 1) * w * 4

/-- The byte offset written for pixel `(x, y)` in `src/glyph/main.cpp` lines
256-259: `max_height - y * width * num_channels + x * num_channels`. -/
def pixel_offset (w h y x : ℤ) : ℤ := max_height_off w h - y * w * 4 + x * 4

/-- The curve-space sample for pixel `(x, y)` in `src/glyph/main.cpp` lines
244-245: `fx = float(x) + min_x`, `fy = float(y) + min_y`. -/
def sample_point (min_x min_y : ℚ) (x y : ℤ) : point :=
  ⟨(x : ℚ) + min_x, (y : ℚ) + min_y⟩

/-- `eval_curve` of the GLSL fragment shader in `src/sdl/main.cpp` lines
265-268: `mt*mt*y1 + 2.0*t*mt*y2 + t*t*y3` with `mt = 1.0 - t`. -/
def glsl_eval_curve (y1 y2 y3 t : ℚ) : ℚ :=
  let mt := 1 - t
  mt * mt * y1 + 2 * t * mt * y2 + t * t * y3

/-- GLSL `clamp(x, a, b) = min(max(x, a), b)`. -/
def glsl_clamp (x a b : ℚ) : ℚ := min (max x a) b

/-- One iteration of the first (horizontal) loop of the fragment shader in
`src/sdl/main.cpp` lines 274-307, accumulating into `coverage`. -/
def shader_step_h (sqrtQ : ℚ → ℚ) (o_coord : point) (ppemx : ℚ)
    (coverage : ℚ) (crv : curve) : ℚ :=
  let p1x := crv.p1.x - o_coord.x
  let p1y := crv.p1.y - o_coord.y
  let p2x := crv.p2.x - o_coord.x
  let p2y := crv.p2.y - o_coord.y
  let p3x := crv.p3.x - o_coord.x
  let p3y := crv.p3.y - o_coord.y
  let a := p1y - 2 * p2y + p3y
  let b := p1y - p2y
  let c := p1y
  let t1 := if |a| < 1 / 10000 then c / (2 * b)
    else (b - sqrtQ (max (b * b - a * c) 0)) / a
  let t2 := if |a| < 1 / 10000 then c / (2 * b)
    else (b + sqrtQ (max (b * b - a * c) 0)) / a
  let num := (if p1y > 0 then 2 else 0) + (if p2y > 0 then 4 else 0) +
    (if p3y > 0 then 8 else 0)
  let sh := 0x2E74 >>> num
  let coverage1 := if sh &&& 1 ≠ 0 then
    coverage + glsl_clamp (glsl_eval_curve p1x p2x p3x t1 * ppemx + 1 / 2) 0 1
  else coverage
  if sh &&& 2 ≠ 0 then
    coverage1 - glsl_clamp (glsl_eval_curve p1x p2x p3x t2 * ppemx + 1 / 2) 0 1
  else coverage1

/-- One iteration of the second (vertical) loop of the fragment shader in
`src/sdl/main.cpp` lines 311-344: the `.yx` swizzle swaps the roles of the
two coordinates, and `ppem.y` scales the ray axis. -/
def shader_step_v (sqrtQ : ℚ → ℚ) (o_coord : point) (ppemy : ℚ)
    (coverage2 : ℚ) (crv : curve) : ℚ :=
  let p1x := crv.p1.y - o_coord.y
  let p1y := crv.p1.x - o_coord.x
  let p2x := crv.p2.y - o_coord.y
  let p2y := crv.p2.x - o_coord.x
  let p3x := crv.p3.y - o_coord.y
  let p3y := crv.p3.x - o_coord.x
  let a := p1y - 2 * p2y + p3y
  let b := p1y - p2y
  let c := p1y
  let t1 := if |a| < 1 / 10000 then c / (2 * b)
    else (b - sqrtQ (max (b * b - a * c) 0)) / a
  let t2 := if |a| < 1 / 10000 then c / (2 * b)
    else (b + sqrtQ (max (b * b - a * c) 0)) / a
  let num := (if p1y > 0 then 2 else 0) + (if p2y > 0 then 4 else 0) +
    (if p3y > 0 then 8 else 0)
  let sh := 0x2E74 >>> num
  let coverage1 := if sh &&& 1 ≠ 0 then
    coverage2 + glsl_clamp (glsl_eval_curve p1x p2x p3x t1 * ppemy + 1 / 2) 0 1
  else coverage2
  if sh &&& 2 ≠ 0 then
    coverage1 - glsl_clamp (glsl_eval_curve p1x p2x p3x t2 * ppemy + 1 / 2) 0 1
  else coverage1

/-- The `main` function of the fragment shader in `src/sdl/main.cpp` lines
270-349: two per-curve loops, then `min(abs(coverage),1)` per axis and the
average. Returns the scalar `avg_coverage` multiplying the fragment color. -/
def fragment_shader (sqrtQ : ℚ → ℚ) (u_curves : List curve) (o_coord : point)
    (ppemx ppemy : ℚ) : ℚ :=
  let coverage := u_curves.foldl (shader_step_h sqrtQ o_coord ppemx) 0
  let coverage2 := u_curves.foldl (shader_step_v sqrtQ o_coord ppemy) 0
  let coverage_h := min |coverage| 1
  let coverage_v := min |coverage2| 1
  (coverage_h + coverage_v) / 2

/-- IEEE-style extended value: a finite rational, the two infinities, or NaN.
Finite arithmetic is exact (no rounding); the special values propagate as in
IEEE 754, which is what the non-finiteness claim about the unguarded
`c / (2*b)` division needs. A single zero stands for IEEE `+0`, which is the
value `b = y1 - y2` takes in the relevant runs (`x - x = +0` in
round-to-nearest). -/
inductive FVal where
  | fin (q : ℚ)
  | pinf
  | ninf
  | nan
deriving DecidableEq

/-- IEEE negation. -/
def fneg : FVal → FVal
  | .fin q => .fin (-q)
  | .pinf => .ninf
  | .ninf => .pinf
  | .nan => .nan

/-- IEEE addition (exact on finite values). -/
def fadd : FVal → FVal → FVal
  | .nan, _ => .nan
  | _, .nan => .nan
  | .pinf, .ninf => .nan
  | .ninf, .pinf => .nan
  | .pinf, _ => .pinf
  | _, .pinf => .pinf
  | .ninf, _ => .ninf
  | _, .ninf => .ninf
  | .fin a, .fin b => .fin (a + b)

/-- IEEE subtraction, `x - y = x + (-y)`. -/
def fsub (x y : FVal) : FVal := fadd x (fneg y)

/-- IEEE multiplication: `inf * 0 = nan`, signs multiply. -/
def fmul : FVal → FVal → FVal
  | .nan, _ => .nan
  | _, .nan => .nan
  | .fin a, .fin b => .fin (a * b)
  | .fin a, .pinf => if 0 < a then .pinf else if a < 0 then .ninf else .nan
  | .fin a, .ninf => if 0 < a then .ninf else if a < 0 then .pinf else .nan
  | .pinf, .fin b => if 0 < b then .pinf else if b < 0 then .ninf else .nan
  | .ninf, .fin b => if 0 < b then .ninf else if b < 0 then .pinf else .nan
  | .pinf, .pinf => .pinf
  | .pinf, .ninf => .ninf
  | .ninf, .pinf => .ninf
  | .ninf, .ninf => .pinf

/-- IEEE division with the single zero read as `+0`: `q / 0` is `±inf` for
`q ≠ 0` and `0 / 0 = nan`; `inf / inf = nan`; finite `/ inf = 0`. -/
def fdiv : FVal → FVal → FVal
  | .nan, _ => .nan
  | _, .nan => .nan
  | .pinf, .pinf => .nan
  | .pinf, .ninf => .nan
  | .ninf, .pinf => .nan
  | .ninf, .ninf => .nan
  | .pinf, .fin b => if b < 0 then .ninf else .pinf
  | .ninf, .fin b => if b < 0 then .pinf else .ninf
  | .fin _, .pinf => .fin 0
  | .fin _, .ninf => .fin 0
  | .fin a, .fin b =>
      if b ≠ 0 then .fin (a / b)
      else if 0 < a then .pinf else if a < 0 then .ninf else .nan

/-- IEEE `<`: any comparison with NaN is false. -/
def fltF : FVal → FVal → Bool
  | .nan, _ => false
  | _, .nan => false
  | .fin a, .fin b => decide (a < b)
  | .ninf, .ninf => false
  | .ninf, _ => true
  | _, .ninf => false
  | .pinf, _ => false
  | .fin _, .pinf => true

/-- `std::abs` on float (`fabs`). -/
def fabsF : FVal → FVal
  | .nan => .nan
  | .pinf => .pinf
  | .ninf => .pinf
  | .fin q => .fin |q|

/-- `std::max(x, a) = (x < a) ? a : x` on float, NaN falling through to `x`. -/
def stdMaxF (x a : FVal) : FVal := if fltF x a then a else x

/-- `std::min(m, b) = (b < m) ? b : m` on float, NaN falling through to `m`. -/
def stdMinF (m b : FVal) : FVal := if fltF b m then b else m

/-- The `clamp` template of `src/main.cpp` instantiated at float:
`std::min(std::max(x, a), b)`. -/
def fclampF (x a b : FVal) : FVal := stdMinF (stdMaxF x a) b

/-- `std::sqrt` on the extended values: NaN for negative or NaN input,
`+inf` for `+inf`; its finite values are abstracted through `sqrtQ`. -/
def fsqrtF (sqrtQ : ℚ → ℚ) : FVal → FVal
  | .nan => .nan
  | .pinf => .pinf
  | .ninf => .nan
  | .fin q => if q < 0 then .nan else .fin (sqrtQ q)

/-- `eval_curve` of `src/main.cpp` over extended values, with the source's
association: `it*it*y1 + 2.0F*t*it*y2 + t*t*y3`. -/
def eval_curveF (y1 y2 y3 t : FVal) : FVal :=
  let it := fsub (.fin 1) t
  fadd (fadd (fmul (fmul it it) y1) (fmul (fmul (fmul (.fin 2) t) it) y2))
    (fmul (fmul t t) y3)

/-- The loop body of `trace_ray` (`src/main.cpp` lines 44-91) over extended
values, in sample-relative coordinates. -/
def segContribF (sqrtQ : ℚ → ℚ) (x1 x2 x3 y1 y2 y3 ppem cov : FVal) : FVal :=
  let a := fadd (fsub y1 (fmul (.fin 2) y2)) y3
  let b := fsub y1 y2
  let c := y1
  let t1 := if fltF (fabsF a) (.fin (1 / 10000)) then fdiv c (fmul (.fin 2) b)
    else fdiv (fsub b (fsqrtF sqrtQ (stdMaxF (fsub (fmul b b) (fmul a c)) (.fin 0)))) a
  let t2 := if fltF (fabsF a) (.fin (1 / 10000)) then fdiv c (fmul (.fin 2) b)
    else fdiv (fadd b (fsqrtF sqrtQ (stdMaxF (fsub (fmul b b) (fmul a c)) (.fin 0)))) a
  let num := (if fltF (.fin 0) y1 then 2 else 0) + (if fltF (.fin 0) y2 then 4 else 0) +
    (if fltF (.fin 0) y3 then 8 else 0)
  let sh := table >>> num
  let cov1 := if sh &&& 1 ≠ 0 then
    fadd cov (fclampF (fadd (fmul (eval_curveF x1 x2 x3 t1) ppem) (.fin (1 / 2))) (.fin 0) (.fin 1))
  else cov
  if sh &&& 2 ≠ 0 then
    fsub cov1 (fclampF (fadd (fmul (eval_curveF x1 x2 x3 t2) ppem) (.fin (1 / 2))) (.fin 0) (.fin 1))
  else cov1

/-- `trace_ray` of `src/main.cpp` over extended values: the same fold, with the
coordinate translation done in float subtraction. -/
def trace_rayF (sqrtQ : ℚ → ℚ) (curves : List curve) (fx fy ppem : ℚ)
    (orient : orientation) : FVal :=
  curves.foldl (fun cov crv =>
    match orient with
    | .horizontal =>
        segContribF sqrtQ (fsub (.fin crv.p1.x) (.fin fx)) (fsub (.fin crv.p2.x) (.fin fx))
          (fsub (.fin crv.p3.x) (.fin fx)) (fsub (.fin crv.p1.y) (.fin fy))
          (fsub (.fin crv.p2.y) (.fin fy)) (fsub (.fin crv.p3.y) (.fin fy)) (.fin ppem) cov
    | .vertical =>
        segContribF sqrtQ (fsub (.fin crv.p1.y) (.fin fy)) (fsub (.fin crv.p2.y) (.fin fy))
          (fsub (.fin crv.p3.y) (.fin fy)) (fsub (.fin crv.p1.x) (.fin fx))
          (fsub (.fin crv.p2.x) (.fin fx)) (fsub (.fin crv.p3.x) (.fin fx)) (.fin ppem) cov)
    (.fin 0)

/-- Finiteness predicate on extended values. -/
def isFiniteF : FVal → Bool
  | .fin _ => true
  | _ => false

/-- The per-pixel compositing step of `main` (`src/main.cpp` lines 139-145)
over extended values: `coverage_h = std::min(std::abs(trace_ray(..)), 1.0F)`,
`coverage_v` likewise for the vertical call, then `(coverage_h + coverage_v) / 2`.
This keeps the program's IEEE error path: a NaN trace propagates through
`std::abs`, `std::min` and the average. -/
def compositeF (sqrtQ : ℚ → ℚ) (curves : List curve) (fx fy ppem_h ppem_v : ℚ) : FVal :=
  let coverage_h := stdMinF (fabsF (trace_rayF sqrtQ curves fx fy ppem_h .horizontal)) (.fin 1)
  let coverage_v := stdMinF (fabsF (trace_rayF sqrtQ curves fx fy ppem_v .vertical)) (.fin 1)
  fdiv (fadd coverage_h coverage_v) (.fin 2)

lemma shiftRight_and_one_ne (n k : ℕ) : ((n >>> k) &&& 1 ≠ 0) ↔ Nat.testBit n k := by
  have h0 : Nat.testBit (n >>> k) 0 = Nat.testBit n k := by
    rw [Nat.testBit_shiftRight, Nat.add_zero]
  rw [← h0, Nat.and_one_is_mod, Nat.testBit_zero]
  simp only [decide_eq_true_eq]
  omega

lemma shiftRight_and_two_ne (n k : ℕ) : ((n >>> k) &&& 2 ≠ 0) ↔ Nat.testBit n (k + 1) := by
  have h1 : Nat.testBit (n >>> k) 1 = Nat.testBit n (k + 1) := by
    rw [Nat.testBit_shiftRight]
  have h2 : (n >>> k) &&& 2 = (Nat.testBit (n >>> k) 1).toNat * 2 := by
    have := Nat.and_two_pow (n >>> k) 1
    simpa using this
  rw [h2, h1]
  cases Nat.testBit n (k + 1) <;> simp

/-- C1: for every segment processed by `trace_ray`, the sign code
`num = 2*[y1>0] + 4*[y2>0] + 8*[y3>0]` is always even (the low bit is never
set), the root `t1` is added exactly when bit `num` of `0x2E74` is 1, and the
root `t2` is subtracted exactly when bit `num+1` of `0x2E74` is 1. -/
theorem segContrib_sign_code_lookup (sqrtQ : ℚ → ℚ) (x1 x2 x3 y1 y2 y3 ppem : ℚ) :
    signCode y1 y2 y3 % 2 = 0 ∧
    segContribRel sqrtQ x1 x2 x3 y1 y2 y3 ppem =
      (if Nat.testBit table (signCode y1 y2 y3) then
        clamp (eval_curve x1 x2 x3 (root1 sqrtQ y1 y2 y3) * ppem + 1 / 2) 0 1
      else 0) -
      (if Nat.testBit table (signCode y1 y2 y3 + 1) then
        clamp (eval_curve x1 x2 x3 (root2 sqrtQ y1 y2 y3) * ppem + 1 / 2) 0 1
      else 0) := by
  constructor
  · unfold signCode
    split_ifs <;> rfl
  · unfold segContribRel
    simp only [shiftRight_and_one_ne, shiftRight_and_two_ne]

lemma stdMinF_abs_fin (q : ℚ) : stdMinF (fabsF (.fin q)) (.fin 1) = .fin (min |q| 1) := by
  simp only [fabsF, stdMinF, fltF, decide_eq_true_eq]
  split_ifs with h
  · rw [min_eq_right (le_of_lt h)]
  · rw [min_eq_left (not_lt.mp h)]

lemma trace_rayF_parallel_nan (sqrtQ : ℚ → ℚ) :
    trace_rayF sqrtQ [⟨⟨1, 1/32768⟩, ⟨1, 1/32768⟩, ⟨1, -(1/32768)⟩⟩]
      0 0 1 .horizontal = FVal.nan := by
  norm_num [trace_rayF, List.foldl, segContribF, eval_curveF, fsub, fneg, fadd,
    fmul, fdiv, fabsF, fltF, fsqrtF, stdMaxF, stdMinF, fclampF, table, isFiniteF,
    abs_of_pos, abs_of_neg,
    (by decide : ((11892 : ℕ) >>> 6) % 2 = 1),
    (by decide : ((11892 : ℕ) >>> 6) &&& 1 = 1),
    (by decide : ((11892 : ℕ) >>> 6) &&& 2 = 0)]

lemma trace_rayF_parallel_vertical_fin (sqrtQ : ℚ → ℚ) :
    trace_rayF sqrtQ [⟨⟨1, 1/32768⟩, ⟨1, 1/32768⟩, ⟨1, -(1/32768)⟩⟩]
      0 0 1 .vertical = FVal.fin 0 := by
  norm_num [trace_rayF, List.foldl, segContribF, eval_curveF, fsub, fneg, fadd,
    fmul, fdiv, fabsF, fltF, fsqrtF, stdMaxF, stdMinF, fclampF, table,
    abs_of_pos, abs_of_neg, abs_zero,
    (by decide : ((11892 : ℕ) >>> 14) % 2 = 0),
    (by decide : ((11892 : ℕ) >>> 14) &&& 1 = 0),
    (by decide : ((11892 : ℕ) >>> 14) &&& 2 = 0)]

/-- C4 counterexample: at the curve set of the unguarded-fallback segment, the
program's per-pixel composite is NaN, not a value in `[0,1]`: the horizontal
trace is NaN, and NaN propagates through `std::abs`, `std::min(.., 1)` and the
average, so the unconditional in-`[0,1]` claim fails on the program. -/
theorem composite_unit_interval_fails_nan :
    compositeF (fun _ => 0) [⟨⟨1, 1/32768⟩, ⟨1, 1/32768⟩, ⟨1, -(1/32768)⟩⟩]
      0 0 1 1 = FVal.nan ∧
    isFiniteF (compositeF (fun _ => 0) [⟨⟨1, 1/32768⟩, ⟨1, 1/32768⟩, ⟨1, -(1/32768)⟩⟩]
      0 0 1 1) = false := by
  have h : compositeF (fun _ => 0) [⟨⟨1, 1/32768⟩, ⟨1, 1/32768⟩, ⟨1, -(1/32768)⟩⟩]
      0 0 1 1 = FVal.nan := by
    simp only [compositeF, trace_rayF_parallel_nan (fun _ => 0),
      trace_rayF_parallel_vertical_fin (fun _ => 0), stdMinF_abs_fin]
    simp [fabsF, stdMinF, fltF, fadd, fdiv]
  exact ⟨h, by rw [h]; rfl⟩

/-- C4 (amended): the per-pixel composite equals the average of
`min(|coverageH|,1)` and `min(|coverageV|,1)` over the two `trace_ray` calls,
and lies in `[0,1]`, whenever both per-axis traces are finite; when a trace is
NaN (the unguarded fallback division of C2), the composite is NaN instead. -/
theorem compositeF_avg_in_unit_interval (sqrtQ : ℚ → ℚ) (curves : List curve)
    (fx fy ppem_h ppem_v qh qv : ℚ)
    (hH : trace_rayF sqrtQ curves fx fy ppem_h .horizontal = .fin qh)
    (hV : trace_rayF sqrtQ curves fx fy ppem_v .vertical = .fin qv) :
    compositeF sqrtQ curves fx fy ppem_h ppem_v =
      .fin ((min |qh| 1 + min |qv| 1) / 2) ∧
    0 ≤ (min |qh| 1 + min |qv| 1) / 2 ∧ (min |qh| 1 + min |qv| 1) / 2 ≤ 1 := by
  refine ⟨?_, ?_, ?_⟩
  · simp only [compositeF, hH, hV, stdMinF_abs_fin, fadd, fdiv]
    rw [if_pos (by norm_num : (2 : ℚ) ≠ 0)]
  · have h1 : (0:ℚ) ≤ min |qh| 1 := le_min (abs_nonneg _) zero_le_one
    have h2 : (0:ℚ) ≤ min |qv| 1 := le_min (abs_nonneg _) zero_le_one
    linarith
  · have h1 : min |qh| 1 ≤ (1:ℚ) := min_le_right _ _
    have h2 : min |qv| 1 ≤ (1:ℚ) := min_le_right _ _
    linarith

/-- C7: a `line_to` operation appends exactly one degenerate quadratic segment
whose start is `prev`, whose end is the target `c`, and whose control point
is the float midpoint of the two endpoints; `prev` advances to `c`. -/
theorem g_line_to_appends_midpoint_segment (s : DecompState) (c : point) :
    (g_line_to s c).curves =
      s.curves ++ [⟨s.prev, ⟨(s.prev.x + c.x) / 2, (s.prev.y + c.y) / 2⟩, c⟩] ∧
    (g_line_to s c).curves.length = s.curves.length + 1 ∧
    (g_line_to s c).prev = c := by
  refine ⟨rfl, ?_, rfl⟩
  simp [g_line_to]

/-- C10: the `cubic_to` handler changes no decomposition state at all — the
curve list, `prev`, and the bounding box are untouched — so the next appended
segment starts at the point reached before the cubic, leaving a gap. -/
theorem g_cubic_to_is_noop (s : DecompState) (c1 c2 c p : point) :
    g_cubic_to s c1 c2 c = s ∧
    (g_line_to (g_cubic_to s c1 c2 c) p).curves =
      s.curves ++ [⟨s.prev, ⟨(s.prev.x + p.x) / 2, (s.prev.y + p.y) / 2⟩, p⟩] :=
  ⟨rfl, rfl⟩

/-- C9: the glyph rasterizer writes pixel `(x, y)` at byte offset
`(height-1-y)*width*4 + x*4` (row-major, stride `width*4`, vertically
flipped: row `y = height-1` lands at offset of buffer row 0), sampling the
curve-space point `(x + min_x, y + min_y)`. -/
theorem glyph_pixel_layout (w h y x : ℤ) (min_x min_y : ℚ) :
    pixel_offset w h y x = (h - 1 - y) * (w * 4) + x * 4 ∧
    pixel_offset w h (h - 1) x = x * 4 ∧
    sample_point min_x min_y x y = ⟨(x : ℚ) + min_x, (y : ℚ) + min_y⟩ := by
  refine ⟨?_, ?_, rfl⟩ <;> unfold pixel_offset max_height_off <;> ring

lemma foldl_fun_congr {α β : Type} (f g : β → α → β) (h : ∀ b a, f b a = g b a) :
    ∀ (l : List α) (init : β), l.foldl f init = l.foldl g init := by
  intro l
  induction l with
  | nil => intro init; rfl
  | cons a l ih => intro init; simp only [List.foldl_cons, h, ih]

lemma shader_step_h_eq (sqrtQ : ℚ → ℚ) (o_coord : point) (ppemx : ℚ)
    (cov : ℚ) (crv : curve) :
    shader_step_h sqrtQ o_coord ppemx cov crv =
      traceStep sqrtQ o_coord.x o_coord.y ppemx .horizontal cov crv := by
  simp only [shader_step_h, traceStep, segContribRel, root1, root2, signCode,
    glsl_eval_curve, eval_curve, glsl_clamp, clamp, table]
  split_ifs <;> ring

lemma shader_step_v_eq (sqrtQ : ℚ → ℚ) (o_coord : point) (ppemy : ℚ)
    (cov : ℚ) (crv : curve) :
    shader_step_v sqrtQ o_coord ppemy cov crv =
      traceStep sqrtQ o_coord.x o_coord.y ppemy .vertical cov crv := by
  simp only [shader_step_v, traceStep, segContribRel, root1, root2, signCode,
    glsl_eval_curve, eval_curve, glsl_clamp, clamp, table]
  split_ifs <;> ring

/-- C8: for the same curve set, sample point and per-axis scales, the GLSL
fragment shader computes exactly the same per-pixel coverage as the software
path (`trace_ray` twice plus compositing). -/
theorem fragment_shader_matches_composite (sqrtQ : ℚ → ℚ) (u_curves : List curve)
    (o_coord : point) (ppemx ppemy : ℚ) :
    fragment_shader sqrtQ u_curves o_coord ppemx ppemy =
      composite sqrtQ u_curves o_coord.x o_coord.y ppemx ppemy := by
  unfold fragment_shader composite trace_ray
  rw [foldl_fun_congr (shader_step_h sqrtQ o_coord ppemx)
      (traceStep sqrtQ o_coord.x o_coord.y ppemx .horizontal)
      (shader_step_h_eq sqrtQ o_coord ppemx),
    foldl_fun_congr (shader_step_v sqrtQ o_coord ppemy)
      (traceStep sqrtQ o_coord.x o_coord.y ppemy .vertical)
      (shader_step_v_eq sqrtQ o_coord ppemy)]

lemma table_bits_swap (y1 y2 y3 : ℚ) :
    (((table >>> signCode y3 y2 y1) &&& 1 ≠ 0) ↔ ((table >>> signCode y1 y2 y3) &&& 2 ≠ 0)) ∧
    (((table >>> signCode y3 y2 y1) &&& 2 ≠ 0) ↔ ((table >>> signCode y1 y2 y3) &&& 1 ≠ 0)) := by
  unfold signCode table
  split_ifs <;> decide

lemma eval_curve_rev (x1 x2 x3 t : ℚ) :
    eval_curve x3 x2 x1 (1 - t) = eval_curve x1 x2 x3 t := by
  unfold eval_curve
  ring

lemma root2_eq_root1_fallback (sqrtQ : ℚ → ℚ) (y1 y2 y3 : ℚ)
    (h : |y1 - 2 * y2 + y3| < 1 / 10000) :
    root2 sqrtQ y1 y2 y3 = root1 sqrtQ y1 y2 y3 := by
  simp only [root1, root2]
  rw [if_pos h, if_pos h]

lemma root1_rev_lin (sqrtQ : ℚ → ℚ) (y1 y2 y3 : ℚ) (ha : y1 - 2 * y2 + y3 = 0)
    (hb : y1 - y2 ≠ 0) :
    root1 sqrtQ y3 y2 y1 = 1 - root1 sqrtQ y1 y2 y3 := by
  have hfb : |y1 - 2 * y2 + y3| < 1 / 10000 := by rw [ha]; norm_num
  have hfb' : |y3 - 2 * y2 + y1| < 1 / 10000 := by
    rw [show y3 - 2 * y2 + y1 = 0 by linarith]; norm_num
  simp only [root1]
  rw [if_pos hfb', if_pos hfb]
  have h3 : y3 = 2 * y2 - y1 := by linarith
  subst h3
  have hb2 : y2 - y1 ≠ 0 := fun h => hb (by linarith [sub_eq_zero.mp h])
  have hb2' : (2 : ℚ) * (2 * y2 - y1 - y2) ≠ 0 := by
    intro h
    apply hb2
    linarith [mul_eq_zero.mp h]
  have hb1' : (2 : ℚ) * (y1 - y2) ≠ 0 := by
    intro h
    apply hb
    rcases mul_eq_zero.mp h with h | h
    · norm_num at h
    · exact h
  field_simp
  ring

lemma root1_rev_quad (sqrtQ : ℚ → ℚ) (y1 y2 y3 : ℚ)
    (h : ¬ |y1 - 2 * y2 + y3| < 1 / 10000) :
    root1 sqrtQ y3 y2 y1 = 1 - root2 sqrtQ y1 y2 y3 := by
  have h' : ¬ |y3 - 2 * y2 + y1| < 1 / 10000 := by
    rw [show y3 - 2 * y2 + y1 = y1 - 2 * y2 + y3 from by ring]; exact h
  have hane : y1 - 2 * y2 + y3 ≠ 0 := fun hz => h (by rw [hz]; norm_num)
  simp only [root1, root2]
  rw [if_neg h', if_neg h]
  rw [show (y3 - y2) * (y3 - y2) - (y3 - 2 * y2 + y1) * y3 =
      (y1 - y2) * (y1 - y2) - (y1 - 2 * y2 + y3) * y1 from by ring]
  rw [show y3 - 2 * y2 + y1 = y1 - 2 * y2 + y3 from by ring]
  field_simp
  ring

lemma root2_rev_quad (sqrtQ : ℚ → ℚ) (y1 y2 y3 : ℚ)
    (h : ¬ |y1 - 2 * y2 + y3| < 1 / 10000) :
    root2 sqrtQ y3 y2 y1 = 1 - root1 sqrtQ y1 y2 y3 := by
  have h' : ¬ |y3 - 2 * y2 + y1| < 1 / 10000 := by
    rw [show y3 - 2 * y2 + y1 = y1 - 2 * y2 + y3 from by ring]; exact h
  have hane : y1 - 2 * y2 + y3 ≠ 0 := fun hz => h (by rw [hz]; norm_num)
  simp only [root1, root2]
  rw [if_neg h', if_neg h]
  rw [show (y3 - y2) * (y3 - y2) - (y3 - 2 * y2 + y1) * y3 =
      (y1 - y2) * (y1 - y2) - (y1 - 2 * y2 + y3) * y1 from by ring]
  rw [show y3 - 2 * y2 + y1 = y1 - 2 * y2 + y3 from by ring]
  field_simp
  ring

lemma segContribRel_rev (sqrtQ : ℚ → ℚ) (x1 x2 x3 y1 y2 y3 ppem : ℚ)
    (ha : y1 - 2 * y2 + y3 = 0 ∨ 1 / 10000 ≤ |y1 - 2 * y2 + y3|) :
    segContribRel sqrtQ x3 x2 x1 y3 y2 y1 ppem =
      - segContribRel sqrtQ x1 x2 x3 y1 y2 y3 ppem := by
  obtain ⟨hswap1, hswap2⟩ := table_bits_swap y1 y2 y3
  simp only [segContribRel]
  rcases ha with ha | ha
  · by_cases hb : y1 - y2 = 0
    · have h2 : y2 = y1 := by linarith
      have h3 : y3 = y1 := by linarith
      rw [h2, h3]
      by_cases hy : y1 > 0
      · have hnum : signCode y1 y1 y1 = 14 := by simp [signCode, hy]
        have d1 : ¬ (table >>> (14 : ℕ) &&& 1 ≠ 0) := by decide
        have d2 : ¬ (table >>> (14 : ℕ) &&& 2 ≠ 0) := by decide
        simp only [hnum, if_neg d1, if_neg d2]
        ring
      · have hnum : signCode y1 y1 y1 = 0 := by simp [signCode, hy]
        have d1 : ¬ (table >>> (0 : ℕ) &&& 1 ≠ 0) := by decide
        have d2 : ¬ (table >>> (0 : ℕ) &&& 2 ≠ 0) := by decide
        simp only [hnum, if_neg d1, if_neg d2]
        ring
    · have hfb : |y1 - 2 * y2 + y3| < 1 / 10000 := by rw [ha]; norm_num
      have hfb' : |y3 - 2 * y2 + y1| < 1 / 10000 := by
        rw [show y3 - 2 * y2 + y1 = 0 by linarith]; norm_num
      rw [root2_eq_root1_fallback sqrtQ y3 y2 y1 hfb',
        root2_eq_root1_fallback sqrtQ y1 y2 y3 hfb,
        root1_rev_lin sqrtQ y1 y2 y3 ha hb, eval_curve_rev]
      simp only [hswap1, hswap2]
      split_ifs <;> ring
  · have hnfb : ¬ |y1 - 2 * y2 + y3| < 1 / 10000 := not_lt.mpr ha
    rw [root1_rev_quad sqrtQ y1 y2 y3 hnfb, root2_rev_quad sqrtQ y1 y2 y3 hnfb,
      eval_curve_rev, eval_curve_rev]
    simp only [hswap1, hswap2]
    split_ifs <;> ring

lemma traceStep_add (sqrtQ : ℚ → ℚ) (fx fy ppem : ℚ) (orient : orientation)
    (q : ℚ) (c : curve) :
    traceStep sqrtQ fx fy ppem orient q c = q + traceStep sqrtQ fx fy ppem orient 0 c := by
  cases orient <;> simp only [traceStep] <;> ring

lemma trace_foldl_shift (sqrtQ : ℚ → ℚ) (fx fy ppem : ℚ) (orient : orientation)
    (cs : List curve) :
    ∀ q : ℚ, cs.foldl (traceStep sqrtQ fx fy ppem orient) q =
      q + cs.foldl (traceStep sqrtQ fx fy ppem orient) 0 := by
  induction cs with
  | nil => intro q; simp
  | cons c cs ih =>
      intro q
      simp only [List.foldl_cons]
      rw [ih (traceStep sqrtQ fx fy ppem orient q c),
        ih (traceStep sqrtQ fx fy ppem orient 0 c),
        traceStep_add sqrtQ fx fy ppem orient q c]
      ring

lemma trace_ray_cons (sqrtQ : ℚ → ℚ) (fx fy ppem : ℚ) (orient : orientation)
    (c : curve) (cs : List curve) :
    trace_ray sqrtQ (c :: cs) fx fy ppem orient =
      traceStep sqrtQ fx fy ppem orient 0 c + trace_ray sqrtQ cs fx fy ppem orient := by
  unfold trace_ray
  simp only [List.foldl_cons]
  rw [trace_foldl_shift]

lemma trace_ray_rev (sqrtQ : ℚ → ℚ) (cs : List curve) (fx fy ppem : ℚ)
    (orient : orientation)
    (h : ∀ c ∈ cs, aCoeff c orient = 0 ∨ 1 / 10000 ≤ |aCoeff c orient|) :
    trace_ray sqrtQ (cs.map revCurve) fx fy ppem orient =
      - trace_ray sqrtQ cs fx fy ppem orient := by
  induction cs with
  | nil => simp [trace_ray]
  | cons c cs ih =>
      have hc := h c (List.mem_cons_self c cs)
      have hcs : ∀ x ∈ cs, aCoeff x orient = 0 ∨ 1 / 10000 ≤ |aCoeff x orient| :=
        fun x hx => h x (List.mem_cons_of_mem c hx)
      simp only [List.map_cons]
      rw [trace_ray_cons, trace_ray_cons, ih hcs]
      have hstep : traceStep sqrtQ fx fy ppem orient 0 (revCurve c) =
          - traceStep sqrtQ fx fy ppem orient 0 c := by
        cases orient
        · simp only [traceStep, revCurve]
          have ha : (c.p1.y - fy) - 2 * (c.p2.y - fy) + (c.p3.y - fy) = 0 ∨
              1 / 10000 ≤ |(c.p1.y - fy) - 2 * (c.p2.y - fy) + (c.p3.y - fy)| := by
            rw [show (c.p1.y - fy) - 2 * (c.p2.y - fy) + (c.p3.y - fy) =
                c.p1.y - 2 * c.p2.y + c.p3.y from by ring]
            exact hc
          rw [segContribRel_rev sqrtQ (c.p1.x - fx) (c.p2.x - fx) (c.p3.x - fx)
            (c.p1.y - fy) (c.p2.y - fy) (c.p3.y - fy) ppem ha]
          ring
        · simp only [traceStep, revCurve]
          have ha : (c.p1.x - fx) - 2 * (c.p2.x - fx) + (c.p3.x - fx) = 0 ∨
              1 / 10000 ≤ |(c.p1.x - fx) - 2 * (c.p2.x - fx) + (c.p3.x - fx)| := by
            rw [show (c.p1.x - fx) - 2 * (c.p2.x - fx) + (c.p3.x - fx) =
                c.p1.x - 2 * c.p2.x + c.p3.x from by ring]
            exact hc
          rw [segContribRel_rev sqrtQ (c.p1.y - fy) (c.p2.y - fy) (c.p3.y - fy)
            (c.p1.x - fx) (c.p2.x - fx) (c.p3.x - fx) ppem ha]
          ring
      rw [hstep]
      ring

/-- C3 (amended): provided every segment's leading quadratic coefficient along
each axis is either exactly 0 or at least `1e-4` in absolute value (i.e. no
segment lands in the near-linear fallback with a nonzero `a`), reversing every
segment negates `trace_ray` on each axis and leaves the composite coverage
unchanged. -/
theorem reversal_negates_and_preserves_composite (sqrtQ : ℚ → ℚ) (cs : List curve)
    (fx fy ppem_h ppem_v : ℚ)
    (h : ∀ c ∈ cs, (aCoeff c .horizontal = 0 ∨ 1 / 10000 ≤ |aCoeff c .horizontal|) ∧
      (aCoeff c .vertical = 0 ∨ 1 / 10000 ≤ |aCoeff c .vertical|)) :
    trace_ray sqrtQ (cs.map revCurve) fx fy ppem_h .horizontal =
      - trace_ray sqrtQ cs fx fy ppem_h .horizontal ∧
    trace_ray sqrtQ (cs.map revCurve) fx fy ppem_v .vertical =
      - trace_ray sqrtQ cs fx fy ppem_v .vertical ∧
    composite sqrtQ (cs.map revCurve) fx fy ppem_h ppem_v =
      composite sqrtQ cs fx fy ppem_h ppem_v := by
  have hh := trace_ray_rev sqrtQ cs fx fy ppem_h .horizontal (fun c hc => (h c hc).1)
  have hv := trace_ray_rev sqrtQ cs fx fy ppem_v .vertical (fun c hc => (h c hc).2)
  refine ⟨hh, hv, ?_⟩
  unfold composite
  rw [hh, hv, abs_neg, abs_neg]

/-- C3 counterexample: for a segment whose quadratic coefficient is tiny but
nonzero (`a = -1/20000`), the near-linear fallback root is not mapped to
`1 - t` by reversal, and reversing the segment does not negate `trace_ray`:
the original traces to `1/2`, the reversal to `-1`. -/
theorem reversal_negation_fails_near_linear :
    trace_ray (fun _ => 0) [revCurve ⟨⟨0, 2⟩, ⟨40002, 1⟩, ⟨0, -(1/20000)⟩⟩] 0 0 1 .horizontal ≠
      - trace_ray (fun _ => 0) [⟨⟨0, 2⟩, ⟨40002, 1⟩, ⟨0, -(1/20000)⟩⟩] 0 0 1 .horizontal := by
  norm_num [trace_ray, traceStep, revCurve, segContribRel, signCode, table,
    root1, root2, eval_curve, clamp, abs_of_pos, abs_of_neg]
  rw [if_neg (by decide : ¬ ((11892 : ℕ) >>> 12 % 2 = 1)),
    if_neg (by decide : ¬ ((11892 : ℕ) >>> 12 &&& 2 = 0)),
    if_pos (by decide : ((11892 : ℕ) >>> 6 &&& 2 = 0)),
    if_pos (by decide : ((11892 : ℕ) >>> 6 % 2 = 1))]
  norm_num

/-- C2: the fallback root `t = c / (2*b)` is divided with no guard on `b`; on
a near-flat segment parallel to the ray (`y1 = y2 = 2^-15`, `y3 = -2^-15`, so
`a = -2^-14` with `|a| < 1e-4` and `b = 0`), the division by zero is reached,
the selected root is `+inf`, and the returned coverage is NaN — non-finite.
All coordinates are small dyadics, so exact rational arithmetic coincides
with `float` arithmetic on this input and the `FVal` model is faithful. -/
theorem unguarded_fallback_division_nan (sqrtQ : ℚ → ℚ) :
    trace_rayF sqrtQ [⟨⟨1, 1/32768⟩, ⟨1, 1/32768⟩, ⟨1, -(1/32768)⟩⟩] 0 0 1 .horizontal =
      FVal.nan ∧
    isFiniteF (trace_rayF sqrtQ [⟨⟨1, 1/32768⟩, ⟨1, 1/32768⟩, ⟨1, -(1/32768)⟩⟩]
      0 0 1 .horizontal) = false :=
  ⟨trace_rayF_parallel_nan sqrtQ, by rw [trace_rayF_parallel_nan sqrtQ]; rfl⟩

/-- Witness for the amended C4 theorem: a vertical line segment through the
sample, whose horizontal trace is `1/2` and vertical trace `0` — both finite —
so the composite is their clamped average `1/4`, inside `[0,1]`. -/
theorem compositeF_in_unit_witness :
    trace_rayF (fun _ => 0) [⟨⟨0, 1⟩, ⟨0, 0⟩, ⟨0, -1⟩⟩] 0 0 1 .horizontal =
      FVal.fin (1/2) ∧
    trace_rayF (fun _ => 0) [⟨⟨0, 1⟩, ⟨0, 0⟩, ⟨0, -1⟩⟩] 0 0 1 .vertical =
      FVal.fin 0 ∧
    (compositeF (fun _ => 0) [⟨⟨0, 1⟩, ⟨0, 0⟩, ⟨0, -1⟩⟩] 0 0 1 1 =
        .fin ((min |(1 : ℚ)/2| 1 + min |(0 : ℚ)| 1) / 2) ∧
      0 ≤ (min |(1 : ℚ)/2| 1 + min |(0 : ℚ)| 1) / 2 ∧
      (min |(1 : ℚ)/2| 1 + min |(0 : ℚ)| 1) / 2 ≤ 1) := by
  have hH : trace_rayF (fun _ => 0) [⟨⟨0, 1⟩, ⟨0, 0⟩, ⟨0, -1⟩⟩] 0 0 1 .horizontal =
      FVal.fin (1/2) := by
    norm_num [trace_rayF, List.foldl, segContribF, eval_curveF, fsub, fneg, fadd,
      fmul, fdiv, fabsF, fltF, fsqrtF, stdMaxF, stdMinF, fclampF, table,
      abs_of_pos, abs_of_neg, abs_zero,
      (by decide : ((11892 : ℕ) >>> 2) % 2 = 1),
      (by decide : ((11892 : ℕ) >>> 2) &&& 1 = 1),
      (by decide : ((11892 : ℕ) >>> 2) &&& 2 = 0)]
  have hV : trace_rayF (fun _ => 0) [⟨⟨0, 1⟩, ⟨0, 0⟩, ⟨0, -1⟩⟩] 0 0 1 .vertical =
      FVal.fin 0 := by
    norm_num [trace_rayF, List.foldl, segContribF, eval_curveF, fsub, fneg, fadd,
      fmul, fdiv, fabsF, fltF, fsqrtF, stdMaxF, stdMinF, fclampF, table,
      abs_of_pos, abs_of_neg, abs_zero,
      (by decide : (11892 : ℕ) % 2 = 0),
      (by decide : (11892 : ℕ) &&& 1 = 0),
      (by decide : (11892 : ℕ) &&& 2 = 0),
      (by decide : ((11892 : ℕ) >>> 0) % 2 = 0),
      (by decide : ((11892 : ℕ) >>> 0) &&& 1 = 0),
      (by decide : ((11892 : ℕ) >>> 0) &&& 2 = 0)]
  exact ⟨hH, hV, compositeF_avg_in_unit_interval (fun _ => 0) _ 0 0 1 1 (1/2) 0 hH hV⟩

/-- Witness for the amended C3 theorem: a single exactly-linear segment (the
left edge of the unit-square demo), whose `a` coefficient is 0 on both axes;
reversal negates both traces and preserves the composite. -/
theorem reversal_negation_witness :
    (∀ c ∈ [(⟨⟨0, 0⟩, ⟨0, 1⟩, ⟨0, 2⟩⟩ : curve)],
      (aCoeff c .horizontal = 0 ∨ 1 / 10000 ≤ |aCoeff c .horizontal|) ∧
      (aCoeff c .vertical = 0 ∨ 1 / 10000 ≤ |aCoeff c .vertical|)) ∧
    (trace_ray (fun _ => 0) ([(⟨⟨0, 0⟩, ⟨0, 1⟩, ⟨0, 2⟩⟩ : curve)].map revCurve)
        (1/4) 1 1 .horizontal =
      - trace_ray (fun _ => 0) [(⟨⟨0, 0⟩, ⟨0, 1⟩, ⟨0, 2⟩⟩ : curve)] (1/4) 1 1 .horizontal ∧
    trace_ray (fun _ => 0) ([(⟨⟨0, 0⟩, ⟨0, 1⟩, ⟨0, 2⟩⟩ : curve)].map revCurve)
        (1/4) 1 1 .vertical =
      - trace_ray (fun _ => 0) [(⟨⟨0, 0⟩, ⟨0, 1⟩, ⟨0, 2⟩⟩ : curve)] (1/4) 1 1 .vertical ∧
    composite (fun _ => 0) ([(⟨⟨0, 0⟩, ⟨0, 1⟩, ⟨0, 2⟩⟩ : curve)].map revCurve) (1/4) 1 1 1 =
      composite (fun _ => 0) [(⟨⟨0, 0⟩, ⟨0, 1⟩, ⟨0, 2⟩⟩ : curve)] (1/4) 1 1 1) := by
  have hypP : ∀ c ∈ [(⟨⟨0, 0⟩, ⟨0, 1⟩, ⟨0, 2⟩⟩ : curve)],
      (aCoeff c .horizontal = 0 ∨ 1 / 10000 ≤ |aCoeff c .horizontal|) ∧
      (aCoeff c .vertical = 0 ∨ 1 / 10000 ≤ |aCoeff c .vertical|) := by
    intro c hc
    rw [List.mem_singleton] at hc
    subst hc
    refine ⟨Or.inl ?_, Or.inl ?_⟩ <;> norm_num [aCoeff]
  exact ⟨hypP,
    reversal_negates_and_preserves_composite (fun _ => 0) _ (1/4) 1 1 1 hypP⟩

end Bezier
